import Mathlib

/-!
Verification development for the comparepdf repository.

The two verified subsystems are the Cross-File Record Matcher/Differ
(`src/lib/structured-differ.ts`) and the Spatial Table Reconstructor
(the position-based PDF table parser).  JavaScript numbers are modelled
as exact rationals (`ℚ`) or integers (`Int`), JavaScript strings as Lean
`String`, and insertion-ordered `Map`s as association lists.
-/

/-- JavaScript `Math.round`: round half towards positive infinity. -/
def jsRound (q : ℚ) : ℤ := ⌊q + 1/2⌋

/-- JavaScript array read `row[i] ?? ""` where `i` may be any integer:
out-of-range (including negative) indices yield `undefined`, which the
`?? ""` turns into the empty string. -/
def getCell (row : List String) (i : Int) : String :=
  if 0 ≤ i then row.getD i.toNat "" else ""

/-- JavaScript array write `a[i] = v`: in-range writes update, writes past
the end extend the array (holes read back as `undefined`, modelled as `""`
since every later read goes through `?? ""` / truthiness). -/
def jsArraySet (l : List String) (i : Nat) (v : String) : List String :=
  if i < l.length then l.set i v
  else l ++ List.replicate (i - l.length) "" ++ [v]

/-- JavaScript `String.prototype.trim`: drop whitespace from both ends
(structural implementation so that concrete inputs evaluate). -/
def jsTrim (s : String) : String :=
  ⟨((s.toList.dropWhile Char.isWhitespace).reverse.dropWhile Char.isWhitespace).reverse⟩

/-- JavaScript `String.prototype.toLowerCase` (ASCII case folding). -/
def jsToLower (s : String) : String :=
  ⟨s.toList.map Char.toLower⟩

/-- JavaScript regex test `/^\d+$/.test(s)`: non-empty and all ASCII digits. -/
def isIntString (s : String) : Bool :=
  s ≠ "" && s.toList.all Char.isDigit

/-- One step of JavaScript `replace(/\s+/g, " ")`: collapse every maximal
whitespace run to a single space.  The boolean records whether the previous
character was part of a whitespace run. -/
def collapseWSAux : List Char → Bool → List Char
  | [], _ => []
  | c :: rest, prevWS =>
    if c.isWhitespace then
      (if prevWS then [] else [' ']) ++ collapseWSAux rest true
    else c :: collapseWSAux rest false

/-- `normalizeKey` from structured-differ.ts:
`val.trim().toLowerCase().replace(/\s+/g, " ")`. -/
def normalizeKey (val : String) : String :=
  ⟨collapseWSAux (jsToLower (jsTrim val)).toList false⟩

/-- Header normalisation used throughout the differ:
`h.toLowerCase().trim()`. -/
def hnorm (h : String) : String := jsTrim (jsToLower h)

/-- Insert `a` into `l` before the first element that is not strictly
below it: the insertion step of a stable insertion sort. -/
def stableInsert (lt : α → α → Bool) (a : α) : List α → List α
  | [] => [a]
  | b :: l => if lt b a then b :: stableInsert lt a l else a :: b :: l

/-- JavaScript `Array.prototype.sort` with a comparator: a stable sort
(modelled as insertion sort); `lt a b` holds when the comparator orders
`a` strictly before `b`. -/
def stableSort (lt : α → α → Bool) (l : List α) : List α :=
  l.foldr (stableInsert lt) []

/-- The character-bigram list of a string, as consecutive character pairs
(`a.slice(i, i + 2)` for `i < a.length - 1` always yields exactly two
characters, so a bigram is faithfully a pair of characters). -/
def bigrams (s : String) : List (Char × Char) :=
  s.toList.zip s.toList.tail

/-- `stringSimilarity` from structured-differ.ts: Dice coefficient of
character bigrams, where the bigrams of `a` are collected into a set and
each bigram position of `b` found in that set counts towards the
intersection. -/
def stringSimilarity (a b : String) : ℚ :=
  if a = b then 1
  else if a.length < 2 ∨ b.length < 2 then 0
  else
    (2 * (((bigrams b).filter (fun bg => bg ∈ bigrams a)).length : ℚ)) /
      (((a.length - 1) + (b.length - 1) : ℕ) : ℚ)

/-- `ParsedTable` from structured-parser.ts (`section` is a Lean keyword,
so the field is called `sectionLabel`). -/
structure ParsedTable where
  sectionLabel : String
  headers : List String
  rows : List (List String)
deriving DecidableEq, Repr

/-- Diff status of a compared record. -/
inductive RowStatus
  | missing
  | modified
  | identical
deriving DecidableEq, Repr

/-- `ComparedCell` from db.ts: one slot per input file (`none` when the
record is absent from that file). -/
structure ComparedCell where
  header : String
  values : List (Option String)
  changed : Bool
deriving DecidableEq, Repr

/-- `ComparedRow` from db.ts. -/
structure ComparedRow where
  status : RowStatus
  keyValue : String
  presentIn : List Nat
  missingFrom : List Nat
  cells : List ComparedCell
deriving DecidableEq, Repr

/-- `ComparisonRecord["summary"]` from db.ts. -/
structure Summary where
  totalItems : Nat
  identical : Nat
  modified : Nat
  missing : Nat
  matchScore : ℤ
  missingPerFile : List Nat
deriving DecidableEq, Repr

/-- `mergeTables` from structured-differ.ts: concatenate all of one file's
tables under the header set of the table with the most columns, padding
shorter rows with empty strings. -/
def mergeTables (tables : List ParsedTable) : List String × List (List String) :=
  match tables with
  | [] => ([], [])
  | [t] => (t.headers, t.rows)
  | t :: ts =>
    let bestHeaders := (t :: ts).foldl
      (fun best tb => if best.length < tb.headers.length then tb.headers else best)
      t.headers
    let allRows := (t :: ts).foldl
      (fun acc tb => acc ++ tb.rows.map
        (fun row => row ++ List.replicate (bestHeaders.length - row.length) ""))
      []
    (bestHeaders, allRows)

/-- `unifyAllHeaders` from structured-differ.ts: union of all headers in
first-seen order, de-duplicated by `hnorm`. -/
def unifyAllHeaders (headerSets : List (List String)) : List String :=
  headerSets.foldl
    (fun acc set =>
      set.foldl
        (fun acc h =>
          if acc.any (fun existing => hnorm existing = hnorm h) then acc
          else acc ++ [h])
        acc)
    []

/-- `normalizeRows` (single row) from structured-differ.ts: re-project a
row onto unified header positions by normalised header-name match. -/
def normalizeRow (originalHeaders unifiedHeaders : List String) (row : List String) : List String :=
  (List.range (min originalHeaders.length row.length)).foldl
    (fun newRow i =>
      match unifiedHeaders.findIdx? (fun h => hnorm h = hnorm (originalHeaders.getD i "")) with
      | some targetIdx => newRow.set targetIdx (row.getD i "")
      | none => newRow)
    (List.replicate unifiedHeaders.length "")

/-- Lookup in an insertion-ordered string-keyed map (JS `Map.get`). -/
def lookupNat (m : List (String × Nat)) (k : String) : Option Nat :=
  (m.find? (fun p => p.1 = k)).map (fun p => p.2)

/-- Lookup in an insertion-ordered string-to-string map (JS `Map.get`). -/
def lookupStr (m : List (String × String)) (k : String) : Option String :=
  (m.find? (fun p => p.1 = k)).map (fun p => p.2)

/-- The per-file key map of structured-differ.ts: normalized key of the
key column mapped to the first row index holding it; empty keys are never
inserted (JS truthiness test `if (key && !map.has(key))`). -/
def buildKeyMap (rows : List (List String)) (keyIdx : Int) : List (String × Nat) :=
  (List.range rows.length).foldl
    (fun map i =>
      let key := normalizeKey (getCell (rows.getD i []) keyIdx)
      if key ≠ "" ∧ lookupNat map key = none then map ++ [(key, i)] else map)
    []

/-- Collect all distinct keys across all files' key maps in first-seen
order (structured-differ.ts lines 31-40). -/
def collectKeys (keyMaps : List (List (String × Nat))) : List String :=
  keyMaps.foldl
    (fun acc m =>
      m.foldl (fun acc p => if p.1 ∈ acc then acc else acc ++ [p.1]) acc)
    []

/-- Best fuzzy candidate for `key` (structured-differ.ts lines 48-57):
scan all keys, keeping the first strict improvement that reaches 0.6. -/
def bestFuzzy (key : String) (allKeys : List String) : String :=
  (allKeys.foldl
    (fun (best : String × ℚ) otherKey =>
      if otherKey = key then best
      else
        let sim := stringSimilarity key otherKey
        if best.2 < sim ∧ (6 : ℚ)/10 ≤ sim then (otherKey, sim) else best)
    ("", 0)).1

/-- `fuzzyMatched` of structured-differ.ts: every key present in exactly
one file is paired with its best fuzzy candidate when one exists (the JS
truthiness test `if (bestMatch)` means the empty string never records a
pairing). -/
def fuzzyMatched (allKeys : List String) (keyMaps : List (List (String × Nat))) :
    List (String × String) :=
  allKeys.foldl
    (fun fm key =>
      if (keyMaps.filter (fun m => lookupNat m key ≠ none)).length = 1 then
        let bestMatch := bestFuzzy key allKeys
        if bestMatch ≠ "" then fm ++ [(key, bestMatch)] else fm
      else fm)
    []

/-- The first row index found for any of `relatedKeys` in one file's key
map (the inner `for (const rk of relatedKeys)` loop with `break`). -/
def findRowIdx (relatedKeys : List String) (m : List (String × Nat)) : Option Nat :=
  relatedKeys.findSome? (fun rk => lookupNat m rk)

/-- Per-header cell values: `row ? (row[hIdx] ?? "").trim() : undefined`. -/
def cellValues (fileRows : List (Option (List String))) (hIdx : Nat) : List (Option String) :=
  fileRows.map (fun fr => fr.map (fun row => jsTrim (row.getD hIdx "")))

/-- JS `l.every(v => v === l[0])`: every element equals the first
(vacuously true on the empty list). -/
def allEqB (l : List String) : Bool :=
  l.all (fun v => v = l.headD "")

/-- Build one `ComparedCell` (structured-differ.ts lines 102-107). -/
def mkCell (missingFrom : List Nat) (fileRows : List (Option (List String)))
    (p : Nat × String) : ComparedCell :=
  let values := cellValues fileRows p.1
  let nonEmpty := values.filterMap id
  let allSame := decide (nonEmpty ≠ []) && allEqB nonEmpty
  ⟨p.2, values, !allSame || decide (missingFrom ≠ [])⟩

/-- The per-cell test inside `hasChanges` (structured-differ.ts lines
114-117): more than one present value and not all equal. -/
def hasChangesCell (c : ComparedCell) : Bool :=
  let vals := c.values.filterMap id
  decide (1 < vals.length) && ! allEqB vals

/-- Per-file row contents for one logical record (`fileRows` in the main
loop): the full normalized row when the file has the record, `none`
otherwise. -/
def fileRowsOf (fileCount : Nat) (keyMaps : List (List (String × Nat)))
    (normalizedFiles : List (List (List String))) (relatedKeys : List String) :
    List (Option (List String)) :=
  (List.range fileCount).map (fun f =>
    (findRowIdx relatedKeys (keyMaps.getD f [])).map
      (fun rowIdx => (normalizedFiles.getD f []).getD rowIdx []))

/-- File indices holding the record (`presentIn` in the main loop). -/
def presentInOf (fileCount : Nat) (keyMaps : List (List (String × Nat)))
    (relatedKeys : List String) : List Nat :=
  (List.range fileCount).filter
    (fun f => (findRowIdx relatedKeys (keyMaps.getD f [])).isSome)

/-- File indices not holding the record (`missingFrom` in the main loop). -/
def missingFromOf (fileCount : Nat) (keyMaps : List (List (String × Nat)))
    (relatedKeys : List String) : List Nat :=
  (List.range fileCount).filter (fun i => i ∉ presentInOf fileCount keyMaps relatedKeys)

/-- Build one `ComparedRow` from the resolved key and its related keys
(the body of the main loop of `compareMultiFiles`, lines 80-127). -/
def buildRow (fileCount : Nat) (headers : List String)
    (keyMaps : List (List (String × Nat))) (normalizedFiles : List (List (List String)))
    (relatedKeys : List String) (resolvedKey : String) : ComparedRow :=
  let fileRows := fileRowsOf fileCount keyMaps normalizedFiles relatedKeys
  let presentIn := presentInOf fileCount keyMaps relatedKeys
  let missingFrom := missingFromOf fileCount keyMaps relatedKeys
  let cells := headers.enum.map (mkCell missingFrom fileRows)
  let status :=
    if missingFrom ≠ [] then RowStatus.missing
    else if cells.any hasChangesCell then RowStatus.modified
    else RowStatus.identical
  ⟨status, resolvedKey, presentIn, missingFrom, cells⟩

/-- All keys that resolve to `resolvedKey` (structured-differ.ts lines
74-77): the resolved key first, then every fuzzy alias of it. -/
def relatedKeysOf (resolvedKey : String) (fm : List (String × String)) : List String :=
  resolvedKey :: (fm.filter (fun p => p.2 = resolvedKey ∧ p.1 ≠ resolvedKey)).map (fun p => p.1)

/-- One iteration of the main loop of `compareMultiFiles` over a pending
key; the state is (results so far, processed keys). -/
def compareStep (fileCount : Nat) (headers : List String)
    (keyMaps : List (List (String × Nat))) (normalizedFiles : List (List (List String)))
    (fm : List (String × String)) (st : List ComparedRow × List String) (key : String) :
    List ComparedRow × List String :=
  if key ∈ st.2 then st
  else if (lookupStr fm key).getD key ∈ st.2 ∧ (lookupStr fm key).getD key ≠ key then st
  else
    (st.1 ++ [buildRow fileCount headers keyMaps normalizedFiles
        (relatedKeysOf ((lookupStr fm key).getD key) fm) ((lookupStr fm key).getD key)],
      st.2 ++ relatedKeysOf ((lookupStr fm key).getD key) fm)

/-- The main loop of `compareMultiFiles` (lines 63-130). -/
def compareLoop (fileCount : Nat) (headers : List String)
    (keyMaps : List (List (String × Nat))) (normalizedFiles : List (List (List String)))
    (fm : List (String × String)) (allKeys : List String) : List ComparedRow :=
  (allKeys.foldl (compareStep fileCount headers keyMaps normalizedFiles fm) ([], [])).1

/-- Sort position of each status (`{ missing: 0, modified: 1, identical: 2 }`). -/
def statusOrder : RowStatus → Nat
  | RowStatus.missing => 0
  | RowStatus.modified => 1
  | RowStatus.identical => 2

/-- The stable status sort of the results (structured-differ.ts lines
132-134). -/
def sortRows (rows : List ComparedRow) : List ComparedRow :=
  stableSort (fun a b => statusOrder a.status < statusOrder b.status) rows

/-- `calculateSummary` from structured-differ.ts. -/
def calculateSummary (rows : List ComparedRow) (fileCount : Nat) : Summary :=
  let totalItems := rows.length
  let identical := rows.countP (fun r => r.status = RowStatus.identical)
  let modified := rows.countP (fun r => r.status = RowStatus.modified)
  let missing := rows.countP (fun r => r.status = RowStatus.missing)
  let missingPerFile := rows.foldl
    (fun acc r => r.missingFrom.foldl (fun acc f => acc.set f (acc.getD f 0 + 1)) acc)
    (List.replicate fileCount 0)
  let matchScore : ℤ :=
    if 0 < totalItems then jsRound ((identical : ℚ) / (totalItems : ℚ) * 100) else 100
  ⟨totalItems, identical, modified, missing, matchScore, missingPerFile⟩

/-- The key-column index actually used by `compareMultiFiles` (line 18):
`Math.min(keyColumnIndex, headers.length - 1)`. -/
def keyIdxOf (headers : List String) (keyColumnIndex : Int) : Int :=
  min keyColumnIndex ((headers.length : Int) - 1)

/-- Per-file merged tables (structured-differ.ts line 14). -/
def perFileOf (allTables : List (List ParsedTable)) : List (List String × List (List String)) :=
  allTables.map mergeTables

/-- The unified headers of a comparison (line 15). -/
def headersOf (allTables : List (List ParsedTable)) : List String :=
  unifyAllHeaders ((perFileOf allTables).map (fun f => f.1))

/-- The per-file normalized rows of a comparison (line 16). -/
def normalizedFilesOf (allTables : List (List ParsedTable)) : List (List (List String)) :=
  (perFileOf allTables).map (fun f => f.2.map (normalizeRow f.1 (headersOf allTables)))

/-- The per-file key maps of a comparison (lines 21-28). -/
def keyMapsOf (allTables : List (List ParsedTable)) (keyColumnIndex : Int) :
    List (List (String × Nat)) :=
  (normalizedFilesOf allTables).map
    (fun rows => buildKeyMap rows (keyIdxOf (headersOf allTables) keyColumnIndex))

/-- All distinct keys of a comparison (lines 31-40). -/
def allKeysOf (allTables : List (List ParsedTable)) (keyColumnIndex : Int) : List String :=
  collectKeys (keyMapsOf allTables keyColumnIndex)

/-- The fuzzy pairings of a comparison (lines 43-60). -/
def fuzzyMatchedOf (allTables : List (List ParsedTable)) (keyColumnIndex : Int) :
    List (String × String) :=
  fuzzyMatched (allKeysOf allTables keyColumnIndex) (keyMapsOf allTables keyColumnIndex)

/-- Result record of `compareMultiFiles`. -/
structure CompareResult where
  headers : List String
  rows : List ComparedRow
  summary : Summary
deriving Repr

/-- `compareMultiFiles` from structured-differ.ts. -/
def compareMultiFiles (allTables : List (List ParsedTable)) (keyColumnIndex : Int) :
    CompareResult :=
  let fileCount := allTables.length
  let headers := headersOf allTables
  let results := compareLoop fileCount headers (keyMapsOf allTables keyColumnIndex)
    (normalizedFilesOf allTables) (fuzzyMatchedOf allTables keyColumnIndex)
    (allKeysOf allTables keyColumnIndex)
  let sorted := sortRows results
  ⟨headers, sorted, calculateSummary sorted fileCount⟩

/-- `compareTables`, the legacy two-file wrapper. -/
def compareTables (tables1 tables2 : List ParsedTable) (keyColumnIndex : Int) : CompareResult :=
  compareMultiFiles [tables1, tables2] keyColumnIndex

/-- A positioned text fragment as collected by the PDF reconstructor
(`allItems` in structured-parser: x/y position, rendered width, trimmed
non-empty text).  Coordinates are modelled as exact rationals. -/
structure TextItem where
  x : ℚ
  y : ℚ
  width : ℚ
  text : String
deriving DecidableEq, Repr

/-- Numeric ascending sort (`xPositions.sort((a, b) => a - b)`). -/
def sortInts (xs : List Int) : List Int :=
  stableSort (fun a b => a < b) xs

/-- Cluster consecutive sorted X positions within 8 units of each other
(discoverColumns inner loop). -/
def buildClusters (xs : List Int) : List (List Int) :=
  match xs with
  | [] => []
  | x0 :: rest =>
    let st := rest.foldl
      (fun (st : List (List Int) × List Int × Int) xi =>
        let (done, currentCluster, prev) := st
        if xi - prev ≤ 8 then (done, currentCluster ++ [xi], xi)
        else (done ++ [currentCluster], [xi], xi))
      ([], [x0], x0)
    st.1 ++ [st.2.1]

/-- Rounded average of a cluster
(`Math.round(c.reduce((a, b) => a + b, 0) / c.length)`). -/
def centroid (c : List Int) : Int :=
  jsRound ((c.foldl (fun a b => a + b) 0 : Int) / (c.length : ℚ))

/-- Minimum of a non-empty integer list (`Math.min(...xPositions)`). -/
def minIntList (xs : List Int) : Int :=
  match xs with
  | [] => 0
  | x :: rest => rest.foldl min x

/-- The sorted rounded X positions of a fragment list. -/
def sortedXsOf (items : List TextItem) : List Int :=
  sortInts (items.map (fun i => jsRound i.x))

/-- The X-position clusters of a fragment list. -/
def clustersOf (items : List TextItem) : List (List Int) :=
  buildClusters (sortedXsOf items)

/-- Clusters with at least 3 members (`significantClusters`). -/
def significantClustersOf (items : List TextItem) : List (List Int) :=
  (clustersOf items).filter (fun c => 3 ≤ c.length)

/-- Clusters with at least 2 members (the `fallback` set). -/
def fallbackClustersOf (items : List TextItem) : List (List Int) :=
  (clustersOf items).filter (fun c => 2 ≤ c.length)

/-- `discoverColumns` from the reconstructor: cluster rounded X positions,
keep clusters with at least 3 members; when at most one such cluster
exists fall back to clusters with at least 2 members, and when at most one
of those exists return a single boundary at the minimum position.  (Never
called on an empty item list; the empty case is unreachable.) -/
def discoverColumns (items : List TextItem) : List Int :=
  if sortedXsOf items = [] then []
  else if (significantClustersOf items).length ≤ 1 then
    if (fallbackClustersOf items).length ≤ 1 then [minIntList (sortedXsOf items)]
    else (fallbackClustersOf items).map centroid
  else (significantClustersOf items).map centroid

/-- Sort fragments by Y then X (`sort((a, b) => a.y - b.y || a.x - b.x)`). -/
def sortItems (items : List TextItem) : List TextItem :=
  stableSort (fun a b => decide (a.y < b.y ∨ (a.y = b.y ∧ a.x < b.x))) items

/-- `groupIntoRows` from the reconstructor: group Y-then-X sorted
fragments into visual rows whose Y differs from the row's first Y by at
most 4 units. -/
def groupIntoRows (items : List TextItem) : List (List TextItem) :=
  match sortItems items with
  | [] => []
  | s0 :: rest =>
    let st := rest.foldl
      (fun (st : List (List TextItem) × List TextItem × ℚ) item =>
        let (rows, currentRow, currentY) := st
        if |item.y - currentY| ≤ 4 then (rows, currentRow ++ [item], currentY)
        else (rows ++ [currentRow], [item], item.y))
      ([], [s0], s0.y)
    st.1 ++ [st.2.1]

/-- `assignToColumns` from the reconstructor: each fragment goes to the
nearest column boundary (first one on ties), texts in the same column are
joined with a single space. -/
def assignToColumns (rowItems : List TextItem) (columnBoundaries : List Int) : List String :=
  match columnBoundaries with
  | [] => []
  | b0 :: bs =>
    rowItems.foldl
      (fun cells item =>
        let best := bs.enum.foldl
          (fun (best : Nat × ℚ) p =>
            let dist := |item.x - (p.2 : ℚ)|
            if dist < best.2 then (p.1 + 1, dist) else best)
          (0, |item.x - (b0 : ℚ)|)
        let prev := cells.getD best.1 ""
        cells.set best.1 (if prev ≠ "" then prev ++ " " ++ item.text else item.text))
      (List.replicate (b0 :: bs).length "")

/-- `findLineNumberColumn` from the reconstructor: a header literally
named like a line-number column, else the first of the first three columns
where at least half of the non-empty values are pure integers. -/
def findLineNumberColumn (headers : List String) (rows : List (List String)) : Int :=
  match headers.findIdx? (fun h =>
    let hn := jsTrim (jsToLower h)
    hn = "line" || hn = "line#" || hn = "line #" || hn = "no" || hn = "no." || hn = "#") with
  | some c => (c : Int)
  | none =>
    match (List.range (min 3 headers.length)).find? (fun c =>
      let vals := rows.map (fun r => jsTrim (r.getD c ""))
      let nonEmpty := (vals.filter (fun v => v ≠ "")).length
      let numCount := (vals.filter (fun v => isIntString v)).length
      decide (0 < nonEmpty) && decide ((1 : ℚ)/2 ≤ (numCount : ℚ) / (nonEmpty : ℚ))) with
    | some c => (c : Int)
    | none => -1

/-- Append a continuation row's non-empty cells into the previous record
(the `else` branch of `mergeMultiLineRows`), pipe-joining with the
existing cell content and never touching the line-number column. -/
def appendContinuation (lineColIdx : Int) (numCols : Nat) (prev row : List String) : List String :=
  (List.range numCols).foldl
    (fun prev c =>
      if jsTrim (row.getD c "") ≠ "" ∧ (c : Int) ≠ lineColIdx then
        jsArraySet prev c
          (if prev.getD c "" ≠ "" then prev.getD c "" ++ " | " ++ jsTrim (row.getD c "")
           else jsTrim (row.getD c ""))
      else prev)
    prev

/-- One step of `mergeMultiLineRows`: a row with a pure integer in the
line column (or any row when nothing has been emitted yet) starts a new
record, anything else is folded into the last record. -/
def mergeStep (lineColIdx : Int) (numCols : Nat) (merged : List (List String))
    (row : List String) : List (List String) :=
  if isIntString (jsTrim (getCell row lineColIdx)) = true ∨ merged = [] then merged ++ [row]
  else
    match merged.getLast? with
    | some prev => merged.dropLast ++ [appendContinuation lineColIdx numCols prev row]
    | none => merged ++ [row]

/-- `mergeMultiLineRows` from the reconstructor (identical in both source
revisions): merge continuation lines into the previous primary row; with
no detected line column the rows pass through unchanged. -/
def mergeMultiLineRows (rows : List (List String)) (lineColIdx : Int) (numCols : Nat) :
    List (List String) :=
  if lineColIdx < 0 then rows
  else rows.foldl (mergeStep lineColIdx numCols) []

/-!
Sub-field extraction.  The source's `SUB_FIELD_PATTERNS` are regexes of
the single shape `W1\s*W2...[:\s]+([^|]+)` with the `i` flag (literal
words separated by optional whitespace, one or more colon/whitespace
separators, then a capture of one or more non-pipe characters).  The
functions below implement exactly this pattern family with JavaScript
leftmost-match and greedy/backtracking semantics: each word and the
whitespace gaps match deterministically (a word never starts with
whitespace), the greedy `[:\s]+` gives back at most one separator
character when the capture would otherwise be empty, and `([^|]+)` takes
the longest run of non-pipe characters.
-/

/-- Case-insensitive literal word match; returns the remaining suffix. -/
def matchWordCi : List Char → List Char → Option (List Char)
  | [], cs => some cs
  | _ :: _, [] => none
  | w :: ws, c :: cs => if c.toLower = w.toLower then matchWordCi ws cs else none

/-- Match the word list of a pattern (words separated by `\s*`). -/
def matchWords : List String → List Char → Option (List Char)
  | [], cs => some cs
  | [w], cs => matchWordCi w.toList cs
  | w :: rest, cs =>
    match matchWordCi w.toList cs with
    | some cs1 => matchWords rest (cs1.dropWhile Char.isWhitespace)
    | none => none

/-- A character matched by the separator class `[:\s]`. -/
def isColonWs (c : Char) : Bool := c = ':' || c.isWhitespace

/-- Try to match `words[:\s]+([^|]+)` at the start of `cs`; on success
returns (total match length, captured characters). -/
def tryMatchAt (words : List String) (cs : List Char) : Option (Nat × List Char) :=
  match matchWords words cs with
  | none => none
  | some cs1 =>
    let wordsLen := cs.length - cs1.length
    let runLen := (cs1.takeWhile isColonWs).length
    if runLen = 0 then none
    else
      let captureStart :=
        match cs1.drop runLen with
        | c :: _ => if c ≠ '|' then some runLen
                    else if 2 ≤ runLen then some (runLen - 1) else none
        | [] => if 2 ≤ runLen then some (runLen - 1) else none
      match captureStart with
      | none => none
      | some start =>
        let capture := (cs1.drop start).takeWhile (fun c => c ≠ '|')
        some (wordsLen + start + capture.length, capture)

/-- Leftmost match of a sub-field pattern: (start index, length, capture). -/
def findMatchAux (words : List String) (cs : List Char) (idx : Nat) :
    Option (Nat × Nat × List Char) :=
  match tryMatchAt words cs with
  | some r => some (idx, r.1, r.2)
  | none =>
    match cs with
    | [] => none
    | _ :: rest => findMatchAux words rest (idx + 1)

/-- JS `pattern.test(s)` for a sub-field pattern. -/
def regexTestP (words : List String) (s : String) : Bool :=
  (findMatchAux words s.toList 0).isSome

/-- JS `s.match(pattern)[1]` for a sub-field pattern (first capture of the
leftmost match). -/
def regexMatch1 (words : List String) (s : String) : Option String :=
  (findMatchAux words s.toList 0).map (fun r => ⟨r.2.2⟩)

/-- Match the cleanup pattern `\|?\s*` + sub-field pattern at the start of
`cs`, returning the total match length.  The optional pipe is tried first
(greedy `\|?`), falling back to the empty alternative. -/
def tryMatchExtAt (words : List String) (cs : List Char) : Option Nat :=
  let tryTail : List Char → Option Nat := fun cs2 =>
    let wsLen := (cs2.takeWhile Char.isWhitespace).length
    (tryMatchAt words (cs2.drop wsLen)).map (fun r => wsLen + r.1)
  match cs with
  | '|' :: rest =>
    match tryTail rest with
    | some l => some (1 + l)
    | none => tryTail cs
  | _ => tryTail cs

/-- Leftmost match of the cleanup pattern: (start index, length). -/
def findExtMatchAux (words : List String) (cs : List Char) (idx : Nat) : Option (Nat × Nat) :=
  match tryMatchExtAt words cs with
  | some len => some (idx, len)
  | none =>
    match cs with
    | [] => none
    | _ :: rest => findExtMatchAux words rest (idx + 1)

/-- JS replace of the first occurrence of the cleanup pattern with `""`. -/
def replaceFirstExt (words : List String) (s : String) : String :=
  match findExtMatchAux words s.toList 0 with
  | some r => ⟨s.toList.take r.1 ++ s.toList.drop (r.1 + r.2)⟩
  | none => s

/-- If `cs` starts with `\|\s*\|`, the length of the inner whitespace run. -/
def matchPipePipeWs (cs : List Char) : Option Nat :=
  match cs with
  | '|' :: rest =>
    let wsLen := (rest.takeWhile Char.isWhitespace).length
    match rest.drop wsLen with
    | '|' :: _ => some wsLen
    | _ => none
  | _ => none

/-- JS `replace(/\|\s*\|/g, "|")`: global left-to-right replacement,
scanning resumes right after each replaced occurrence. -/
def collapsePipesAux : List Char → List Char
  | [] => []
  | c :: rest =>
    match matchPipePipeWs (c :: rest) with
    | some wsLen => '|' :: collapsePipesAux (rest.drop (wsLen + 1))
    | none => c :: collapsePipesAux rest
termination_by cs => cs.length
decreasing_by
  · simp only [List.length_drop, List.length_cons]
    omega
  · simp

/-- Length of the leading whitespace run. -/
def wsRunLen (cs : List Char) : Nat := (cs.takeWhile Char.isWhitespace).length

/-- The `^\s*\|\s*` alternative of the edge-cleanup regex. -/
def stripLeadingPipe (cs : List Char) : List Char :=
  match cs.drop (wsRunLen cs) with
  | '|' :: rest2 => rest2.drop (wsRunLen rest2)
  | _ => cs

/-- The `\s*\|\s*$` alternative of the edge-cleanup regex (leftmost
end-anchored match: the last pipe followed only by whitespace, together
with the whitespace run before it). -/
def stripTrailingPipe (cs : List Char) : List Char :=
  let rev := cs.reverse
  match rev.drop (wsRunLen rev) with
  | '|' :: rest2 => (rest2.drop (wsRunLen rest2)).reverse
  | _ => cs

/-- JS `replace(/^\s*\|\s*|\s*\|\s*$/g, "")`. -/
def stripEdges (cs : List Char) : List Char :=
  stripTrailingPipe (stripLeadingPipe cs)

/-- `SUB_FIELD_PATTERNS` from the reconstructor: output label and the
literal word sequence of the pattern. -/
def SUB_FIELD_PATTERNS : List (String × List String) :=
  [("Piece Mark", ["Piece", "Mark"]),
   ("Punch", ["Punch"]),
   ("Bend A", ["Bend", "A"]),
   ("Bend B", ["Bend", "B"]),
   ("Bend C", ["Bend", "C"]),
   ("Finish", ["Finish"]),
   ("Grade", ["Grade"])]

/-- JS `h.toLowerCase().includes("description")`. -/
def isDescHeader (h : String) : Bool :=
  decide ("description".toList <:+: (jsToLower h).toList)

/-- `extractSubFields` from the reconstructor: pick the description
column (header containing "description", else largest average length),
append one output column per pattern that matches some row, and strip the
matched label:value fragments out of the description cell. -/
def extractSubFields (headers : List String) (rows : List (List String)) :
    List String × List (List String) :=
  let descColIdx0 : Int :=
    match headers.findIdx? isDescHeader with
    | some i => (i : Int)
    | none => -1
  let descColIdx : Int :=
    if descColIdx0 < 0 then
      ((List.range headers.length).foldl
        (fun (st : ℚ × Int) c =>
          let avgLen := (rows.foldl (fun sum r => sum + ((r.getD c "").length : ℚ)) 0) /
            (max (rows.length : ℚ) 1)
          if st.1 < avgLen then (avgLen, (c : Int)) else st)
        (0, descColIdx0)).2
    else descColIdx0
  if descColIdx < 0 then (headers, rows)
  else
    let activeFields := SUB_FIELD_PATTERNS.filter
      (fun p => rows.any (fun r => regexTestP p.2 (getCell r descColIdx)))
    if activeFields = [] then (headers, rows)
    else
      let newHeaders := headers ++ activeFields.map (fun f => f.1)
      let newRows := rows.map (fun row =>
        let desc := getCell row descColIdx
        let newRow := row ++ activeFields.map (fun f =>
          match regexMatch1 f.2 desc with
          | some v => jsTrim v
          | none => "")
        let cleanDesc := activeFields.foldl (fun d f => replaceFirstExt f.2 d) desc
        let cleanDesc := jsTrim (String.mk (stripEdges (collapsePipesAux cleanDesc.toList)))
        jsArraySet newRow descColIdx.toNat cleanDesc)
      (newHeaders, newRows)

/-- The pure core of `parsePdfToTables` (structured-parser revision with
column discovery): everything after the positioned fragments of all pages
have been collected into `allItems`. -/
def parsePdfToTables (allItems : List TextItem) : List ParsedTable :=
  if allItems = [] then [⟨"Document", ["Content"], []⟩]
  else
    let columnBoundaries := discoverColumns allItems
    let textRows := groupIntoRows allItems
    let rawRows := (textRows.map (fun rowItems => assignToColumns rowItems columnBoundaries)).filter
      (fun cells => cells.any (fun c => jsTrim c ≠ ""))
    if rawRows = [] then [⟨"Document", ["Content"], []⟩]
    else
      let headers := (rawRows.headD []).enum.map
        (fun p => if p.2 = "" then "Column " ++ toString (p.1 + 1) else p.2)
      let dataLines := (rawRows.drop 1).filter (fun r => r.any (fun c => jsTrim c ≠ ""))
      let lineColIdx := findLineNumberColumn headers dataLines
      let mergedRows := mergeMultiLineRows dataLines lineColIdx headers.length
      let fr := extractSubFields headers mergedRows
      [⟨"All Pages", fr.1, fr.2⟩]

/-- All elements of a list are equal (the specification's reading of "the
values are all equal"). -/
def listAllEq (l : List String) : Prop := ∀ x ∈ l, ∀ y ∈ l, x = y

/-- Whether a data row starts a new record: a pure integer in the
detected line-number column. -/
def isNewRecordRow (lineColIdx : Int) (row : List String) : Bool :=
  isIntString (jsTrim (getCell row lineColIdx))

/-- Specification-side grouping of data rows into records: the list is cut
immediately before every row satisfying `p` (the first row always heads
the first record). -/
def chunkRecords (p : List String → Bool) : List (List String) → List (List (List String))
  | [] => []
  | r :: rest =>
    (r :: rest.takeWhile (fun x => !p x)) :: chunkRecords p (rest.dropWhile (fun x => !p x))
termination_by l => l.length
decreasing_by
  have h := List.Sublist.length_le (List.dropWhile_sublist (l := rest) (fun x => !p x))
  simp only [List.length_cons]
  omega

/-- Specification-side record merge: fold every continuation row of a
record chunk into its head. -/
def collapseChunk (lineColIdx : Int) (numCols : Nat) (chunk : List (List String)) :
    List String :=
  match chunk with
  | [] => []
  | head :: conts => conts.foldl (appendContinuation lineColIdx numCols) head

/-- Concrete two-file comparison input (the Bolt 10 / Bolt 12 scenario). -/
def exTables : List (List ParsedTable) :=
  [[⟨"s", ["Item", "Qty"], [["Bolt", "10"]]⟩],
   [⟨"s", ["Item", "Qty"], [["Bolt", "12"]]⟩]]

/-- The compared record that `compareMultiFiles exTables 0` produces. -/
def boltRow : ComparedRow :=
  ⟨RowStatus.modified, "bolt", [0, 1], [],
   [⟨"Item", [some "Bolt", some "Bolt"], false⟩,
    ⟨"Qty", [some "10", some "12"], true⟩]⟩

/-- Concrete fragment list whose X positions are 0, 0, 0, 100, 101: one
cluster with three members and one with two. -/
def itemsC8 : List TextItem :=
  [⟨0, 0, 10, "a"⟩, ⟨0, 10, 10, "b"⟩, ⟨0, 20, 10, "c"⟩,
   ⟨100, 0, 10, "d"⟩, ⟨101, 10, 10, "e"⟩]

/-- Concrete single-file comparison input with headers a, b. -/
def exTablesC3 : List (List ParsedTable) :=
  [[⟨"S", ["a", "b"], [["1", "2"]]⟩]]

/-! ## Theorems -/

theorem mem_stableInsert {α : Type} (lt : α → α → Bool) (a x : α) (l : List α) :
    x ∈ stableInsert lt a l ↔ x = a ∨ x ∈ l := by
  induction l with
  | nil => simp [stableInsert]
  | cons b l ih =>
    by_cases h : lt b a
    · simp [stableInsert, h, ih]
      tauto
    · simp [stableInsert, h]

theorem mem_stableSort {α : Type} (lt : α → α → Bool) (x : α) (l : List α) :
    x ∈ stableSort lt l ↔ x ∈ l := by
  induction l with
  | nil => simp [stableSort]
  | cons b l ih =>
    rw [show stableSort lt (b :: l) = stableInsert lt b (stableSort lt l) from rfl,
      mem_stableInsert]
    simp [ih]

theorem stringSimilarity_eval (a b : String) (hne : a ≠ b)
    (hlen : ¬(a.length < 2 ∨ b.length < 2)) :
    stringSimilarity a b =
      (2 * (((bigrams b).filter (fun bg => bg ∈ bigrams a)).length : ℚ)) /
        (((a.length - 1) + (b.length - 1) : ℕ) : ℚ) := by
  rw [stringSimilarity, if_neg hne, if_neg hlen]

/-- C7: when the per-page fragment input is empty (no fragments on any
page), reconstruction returns the empty table with the single header
"Content" and no rows; being a total function of the embedded pure core,
it raises no exception on such input. -/
theorem c7_empty_reconstruct (pageItems : List (List TextItem))
    (h : ∀ p ∈ pageItems, p = []) :
    parsePdfToTables pageItems.flatten = [⟨"Document", ["Content"], []⟩] := by
  have hnil : pageItems.flatten = [] := by
    rw [List.flatten_eq_nil_iff]
    exact h
  rw [hnil]
  rfl

/-- Witness for C7 at the concrete two-page empty input. -/
theorem c7_witness :
    (∀ p ∈ [([] : List TextItem), []], p = []) ∧
    parsePdfToTables ([([] : List TextItem), []]).flatten =
      [⟨"Document", ["Content"], []⟩] :=
  ⟨by simp, c7_empty_reconstruct _ (by simp)⟩

/-- C3 counterexample: with two unified headers and `keyColumnIndex = -1`
the index actually used to read key values is `-1`, which is not in
`[0, headers.length - 1]`: only the upper bound is clamped. -/
theorem c3_counterexample :
    (compareMultiFiles exTablesC3 (-1)).headers = ["a", "b"] ∧
    keyIdxOf ["a", "b"] (-1) = -1 ∧ ¬ (0 ≤ keyIdxOf ["a", "b"] (-1)) :=
  ⟨rfl, of_decide_eq_true rfl, of_decide_eq_true rfl⟩

/-- C3 (amended): the key-column index used by `compareMultiFiles` is
`min keyColumnIndex (headers.length - 1)`: it is always clamped from
above to `headers.length - 1`, and it lies in `[0, headers.length - 1]`
whenever `keyColumnIndex` is non-negative and there is at least one
header; negative values are passed through unclamped. -/
theorem c3_clamped_above (headers : List String) (k : Int) :
    keyIdxOf headers k ≤ (headers.length : Int) - 1 ∧
    (0 ≤ k → headers ≠ [] →
      0 ≤ keyIdxOf headers k ∧ keyIdxOf headers k ≤ (headers.length : Int) - 1) := by
  refine ⟨min_le_right _ _, fun hk hne => ⟨?_, min_le_right _ _⟩⟩
  have hlen : headers.length ≠ 0 := by simpa using hne
  exact le_min hk (by omega)

/-- Witness for C3 (amended) at one header and index 0. -/
theorem c3_witness :
    keyIdxOf ["a"] 0 ≤ ((["a"] : List String).length : Int) - 1 ∧
    0 ≤ keyIdxOf ["a"] 0 :=
  ⟨(c3_clamped_above ["a"] 0).1,
   ((c3_clamped_above ["a"] 0).2 (by norm_num) (by simp)).1⟩

/-- C5 counterexample: with a detected line-number column, a leading data
row without an integer in that column is emitted as its own record (the
number of output records exceeds the number of integer rows), not
appended into a previous record as the claim states. -/
theorem c5_counterexample :
    mergeMultiLineRows [["x", "a"]] 0 2 = [["x", "a"]] ∧
    isNewRecordRow 0 ["x", "a"] = false ∧
    (mergeMultiLineRows [["x", "a"]] 0 2).length ≠
      List.countP (isNewRecordRow 0) [["x", "a"]] :=
  ⟨rfl, rfl, of_decide_eq_true rfl⟩

theorem filter_mem_length_eq_card_inter (u v : List (Char × Char))
    (hu : u.Nodup) :
    (u.filter (fun bg => bg ∈ v)).length = (u.toFinset ∩ v.toFinset).card := by
  rw [← List.toFinset_card_of_nodup (hu.filter _), List.toFinset_filter]
  congr 1
  ext x
  simp

/-- C4 counterexample: the bigram similarity is not symmetric, because the
intersection counts the second string's bigram positions with multiplicity
against the first string's bigram set: `similarity("aaa", "aab") = 1/2`
while `similarity("aab", "aaa") = 1`. -/
theorem c4_counterexample :
    stringSimilarity "aaa" "aab" = 1/2 ∧ stringSimilarity "aab" "aaa" = 1 ∧
    stringSimilarity "aaa" "aab" ≠ stringSimilarity "aab" "aaa" := by
  have h1 : stringSimilarity "aaa" "aab" = 1/2 := by
    rw [stringSimilarity_eval "aaa" "aab" (of_decide_eq_true rfl) (of_decide_eq_true rfl)]
    have e1 : ((bigrams "aab").filter (fun bg => bg ∈ bigrams "aaa")).length = 1 := rfl
    have e2 : (("aaa".length - 1) + ("aab".length - 1)) = 4 := rfl
    rw [e1, e2]
    norm_num
  have h2 : stringSimilarity "aab" "aaa" = 1 := by
    rw [stringSimilarity_eval "aab" "aaa" (of_decide_eq_true rfl) (of_decide_eq_true rfl)]
    have e1 : ((bigrams "aaa").filter (fun bg => bg ∈ bigrams "aab")).length = 2 := rfl
    have e2 : (("aab".length - 1) + ("aaa".length - 1)) = 4 := rfl
    rw [e1, e2]
    norm_num
  refine ⟨h1, h2, ?_⟩
  rw [h1, h2]
  norm_num

/-- C4 (amended): `similarity(a, a) = 1` for every string `a` of length at
least 2, and similarity is symmetric whenever neither string contains a
repeated bigram (for strings with a repeated bigram symmetry can fail, as
the counterexample shows). -/
theorem c4_refl_and_nodup_symm :
    (∀ a : String, 2 ≤ a.length → stringSimilarity a a = 1) ∧
    (∀ a b : String, (bigrams a).Nodup → (bigrams b).Nodup →
      stringSimilarity a b = stringSimilarity b a) := by
  constructor
  · intro a _
    simp [stringSimilarity]
  · intro a b ha hb
    by_cases hab : a = b
    · rw [hab]
    · by_cases hlen : a.length < 2 ∨ b.length < 2
      · rw [stringSimilarity, stringSimilarity, if_neg hab, if_neg (Ne.symm hab),
          if_pos hlen, if_pos (Or.symm hlen)]
      · rw [stringSimilarity_eval a b hab hlen,
          stringSimilarity_eval b a (Ne.symm hab) (fun h => hlen (Or.symm h))]
        have key : ((bigrams b).filter (fun bg => bg ∈ bigrams a)).length
            = ((bigrams a).filter (fun bg => bg ∈ bigrams b)).length := by
          have e1 := filter_mem_length_eq_card_inter (bigrams b) (bigrams a) hb
          have e2 := filter_mem_length_eq_card_inter (bigrams a) (bigrams b) ha
          rw [Finset.inter_comm] at e1
          exact e1.trans e2.symm
        rw [key, Nat.add_comm (a.length - 1) (b.length - 1)]

/-- Witness for C4 (amended) at concrete bigram-duplicate-free strings. -/
theorem c4_witness :
    stringSimilarity "ab" "ab" = 1 ∧
    stringSimilarity "ab" "cd" = stringSimilarity "cd" "ab" :=
  ⟨c4_refl_and_nodup_symm.1 "ab" (of_decide_eq_true rfl),
   c4_refl_and_nodup_symm.2 "ab" "cd" (of_decide_eq_true rfl) (of_decide_eq_true rfl)⟩

/-- C10 counterexample: the similarity can exceed 1 when the second
string repeats a bigram of the first:
`similarity("aab", "aaab") = 6/5 > 1`. -/
theorem c10_counterexample :
    stringSimilarity "aab" "aaab" = 6/5 ∧ ¬ (stringSimilarity "aab" "aaab" ≤ 1) := by
  have h : stringSimilarity "aab" "aaab" = 6/5 := by
    rw [stringSimilarity_eval "aab" "aaab" (of_decide_eq_true rfl) (of_decide_eq_true rfl)]
    have e1 : ((bigrams "aaab").filter (fun bg => bg ∈ bigrams "aab")).length = 3 := rfl
    have e2 : (("aab".length - 1) + ("aaab".length - 1)) = 5 := rfl
    rw [e1, e2]
    norm_num
  refine ⟨h, ?_⟩
  rw [h]
  norm_num

theorem bigrams_length (s : String) : (bigrams s).length = s.length - 1 := by
  rw [bigrams, List.length_zip, List.length_tail]
  have h : s.toList.length = s.length := rfl
  rw [h]
  omega

/-- C10 (amended): the bigram similarity always lies in `[0, 2)` (the
upper bound 1 fails, as the counterexample shows, but the value is always
non-negative and strictly below 2). -/
theorem c10_bounds (a b : String) :
    0 ≤ stringSimilarity a b ∧ stringSimilarity a b < 2 := by
  by_cases hab : a = b
  · rw [hab, stringSimilarity, if_pos rfl]
    norm_num
  · by_cases hlen : a.length < 2 ∨ b.length < 2
    · rw [stringSimilarity, if_neg hab, if_pos hlen]
      norm_num
    · rw [stringSimilarity_eval a b hab hlen]
      push_neg at hlen
      obtain ⟨ha2, hb2⟩ := hlen
      have hI : ((bigrams b).filter (fun bg => bg ∈ bigrams a)).length ≤ b.length - 1 := by
        rw [← bigrams_length b]
        exact List.length_filter_le _ _
      have hDpos : (0 : ℚ) < (((a.length - 1) + (b.length - 1) : ℕ) : ℚ) := by
        have : 0 < (a.length - 1) + (b.length - 1) := by omega
        exact_mod_cast this
      constructor
      · apply div_nonneg _ hDpos.le
        positivity
      · rw [div_lt_iff₀ hDpos]
        have hID : 2 * ((bigrams b).filter (fun bg => bg ∈ bigrams a)).length <
            2 * ((a.length - 1) + (b.length - 1)) := by omega
        exact_mod_cast hID

theorem sortedXs_itemsC8 : sortedXsOf itemsC8 = [0, 0, 0, 100, 101] := by
  have h0 : jsRound (0:ℚ) = 0 := by norm_num [jsRound, Int.floor_eq_iff]
  have h100 : jsRound (100:ℚ) = 100 := by norm_num [jsRound, Int.floor_eq_iff]
  have h101 : jsRound (101:ℚ) = 101 := by norm_num [jsRound, Int.floor_eq_iff]
  rw [sortedXsOf]
  simp only [itemsC8, List.map, h0, h100, h101]
  rfl

theorem sig_itemsC8 : significantClustersOf itemsC8 = [[0, 0, 0]] := by
  rw [significantClustersOf, clustersOf, sortedXs_itemsC8]
  rfl

theorem fb_itemsC8 : fallbackClustersOf itemsC8 = [[0, 0, 0], [100, 101]] := by
  rw [fallbackClustersOf, clustersOf, sortedXs_itemsC8]
  rfl

theorem centroid_c8_left : centroid [0, 0, 0] = 0 := by
  norm_num [centroid, jsRound, List.foldl_cons, List.foldl_nil, Int.floor_eq_iff]

theorem centroid_c8_right : centroid [100, 101] = 101 := by
  norm_num [centroid, jsRound, List.foldl_cons, List.foldl_nil, Int.floor_eq_iff]

theorem itemsC8_ne_nil : itemsC8 ≠ [] := of_decide_eq_true rfl

theorem sortedXs_ne_nil_of_ne_nil (items : List TextItem) (hne : items ≠ []) :
    sortedXsOf items ≠ [] := by
  intro h
  cases items with
  | nil => exact hne rfl
  | cons i rest =>
    have hmem : jsRound i.x ∈ sortedXsOf (i :: rest) := by
      rw [sortedXsOf, sortInts, mem_stableSort]
      exact List.mem_map_of_mem _ (List.mem_cons_self _ _)
    rw [h] at hmem
    exact absurd hmem (List.not_mem_nil _)

/-- C8 (amended): clusters with fewer than 3 members are discarded and the
remaining centroids returned only when MORE THAN ONE significant cluster
remains; when at most one remains (including the non-empty singleton
case), the algorithm falls back to clusters with at least 2 members, and
when at most one of those remains it returns the single boundary at the
minimum position. -/
theorem c8_cluster_fallback (items : List TextItem) (hne : items ≠ []) :
    (2 ≤ (significantClustersOf items).length →
      discoverColumns items = (significantClustersOf items).map centroid) ∧
    ((significantClustersOf items).length ≤ 1 →
      2 ≤ (fallbackClustersOf items).length →
      discoverColumns items = (fallbackClustersOf items).map centroid) ∧
    ((significantClustersOf items).length ≤ 1 →
      (fallbackClustersOf items).length ≤ 1 →
      discoverColumns items = [minIntList (sortedXsOf items)]) := by
  have hxs := sortedXs_ne_nil_of_ne_nil items hne
  refine ⟨fun h2 => ?_, fun h1 h2 => ?_, fun h1 h2 => ?_⟩
  · rw [discoverColumns, if_neg hxs, if_neg (by omega)]
  · rw [discoverColumns, if_neg hxs, if_pos h1, if_neg (by omega)]
  · rw [discoverColumns, if_neg hxs, if_pos h1, if_pos h2]

/-- C8 counterexample: on X positions 0, 0, 0, 100, 101 exactly one
cluster (three zeros) survives the fewer-than-3-members discard, so the
candidate set is NOT empty; the claim then demands the result [0], but
the code nevertheless falls back to the 2-member clusters and returns
[0, 101]. -/
theorem c8_counterexample :
    significantClustersOf itemsC8 = [[0, 0, 0]] ∧
    discoverColumns itemsC8 = [0, 101] ∧
    discoverColumns itemsC8 ≠ (significantClustersOf itemsC8).map centroid := by
  have hdisc : discoverColumns itemsC8 = [0, 101] := by
    rw [discoverColumns,
      if_neg (show ¬ sortedXsOf itemsC8 = [] from by rw [sortedXs_itemsC8]; simp),
      if_pos (show (significantClustersOf itemsC8).length ≤ 1 from by
        rw [sig_itemsC8]; norm_num),
      if_neg (show ¬ (fallbackClustersOf itemsC8).length ≤ 1 from by
        rw [fb_itemsC8]; norm_num),
      fb_itemsC8]
    simp [centroid_c8_left, centroid_c8_right]
  refine ⟨sig_itemsC8, hdisc, ?_⟩
  rw [hdisc, sig_itemsC8]
  simp [centroid_c8_left]

/-- Witness for C8 (amended): the fallback branch fires on `itemsC8`. -/
theorem c8_witness :
    itemsC8 ≠ [] ∧ (significantClustersOf itemsC8).length ≤ 1 ∧
    2 ≤ (fallbackClustersOf itemsC8).length ∧
    discoverColumns itemsC8 = (fallbackClustersOf itemsC8).map centroid :=
  ⟨itemsC8_ne_nil, by rw [sig_itemsC8]; norm_num, by rw [fb_itemsC8]; norm_num,
   (c8_cluster_fallback itemsC8 itemsC8_ne_nil).2.1
     (by rw [sig_itemsC8]; norm_num) (by rw [fb_itemsC8]; norm_num)⟩

theorem getCell_jsArraySet_ne (l : List String) (c : Nat) (v : String) (i : Int)
    (h : (c : Int) ≠ i) : getCell (jsArraySet l c v) i = getCell l i := by
  rw [getCell, getCell]
  by_cases hi : 0 ≤ i
  · rw [if_pos hi, if_pos hi]
    have hcj : c ≠ i.toNat := by
      intro hc
      apply h
      rw [hc, Int.toNat_of_nonneg hi]
    rw [jsArraySet]
    by_cases hc : c < l.length
    · rw [if_pos hc, List.getD_eq_getElem?_getD, List.getD_eq_getElem?_getD,
        List.getElem?_set_ne hcj]
    · rw [if_neg hc]
      push_neg at hc
      by_cases hj : i.toNat < l.length
      · rw [List.append_assoc, List.getD_append _ _ _ _ hj]
      · push_neg at hj
        rw [List.getD_eq_default _ _ hj, List.append_assoc,
          List.getD_append_right _ _ _ _ hj]
        by_cases hk : i.toNat - l.length < c - l.length
        · rw [List.getD_append _ _ _ _ (by simpa using hk),
            List.getD_eq_getElem?_getD, List.getElem?_replicate]
          simp [hk]
        · rw [List.getD_eq_default]
          simp only [List.length_append, List.length_replicate, List.length_singleton]
          omega
  · rw [if_neg hi, if_neg hi]

theorem appendContinuation_preserves_lineCol (lineColIdx : Int) (numCols : Nat)
    (prev row : List String) :
    getCell (appendContinuation lineColIdx numCols prev row) lineColIdx =
      getCell prev lineColIdx := by
  rw [appendContinuation]
  generalize List.range numCols = cs
  induction cs generalizing prev with
  | nil => rfl
  | cons c cs ih =>
    rw [List.foldl_cons, ih]
    by_cases hcond : jsTrim (row.getD c "") ≠ "" ∧ (c : Int) ≠ lineColIdx
    · rw [if_pos hcond]
      exact getCell_jsArraySet_ne _ _ _ _ hcond.2
    · rw [if_neg hcond]

theorem mergeStep_cont (lc : Int) (n : Nat) (A : List (List String))
    (head row : List String) (hrow : isNewRecordRow lc row = false) :
    mergeStep lc n (A ++ [head]) row = A ++ [appendContinuation lc n head row] := by
  rw [mergeStep, if_neg, List.getLast?_concat, List.dropLast_concat]
  rw [isNewRecordRow] at hrow
  simp [hrow]

theorem foldl_mergeStep_conts (lc : Int) (n : Nat) (conts : List (List String))
    (hc : ∀ r ∈ conts, isNewRecordRow lc r = false) :
    ∀ (A : List (List String)) (head : List String),
    conts.foldl (mergeStep lc n) (A ++ [head]) =
      A ++ [conts.foldl (appendContinuation lc n) head] := by
  induction conts with
  | nil => intro A head; rfl
  | cons r rest ih =>
    intro A head
    rw [List.foldl_cons, List.foldl_cons,
      mergeStep_cont lc n A head r (hc r (List.mem_cons_self _ _)),
      ih (fun x hx => hc x (List.mem_cons_of_mem _ hx))]

theorem foldl_mergeStep_chunks (lc : Int) (n : Nat) :
    ∀ (N : Nat) (rows : List (List String)), rows.length ≤ N →
    ∀ (A : List (List String)) (head : List String),
    rows.foldl (mergeStep lc n) (A ++ [head]) =
      A ++ (chunkRecords (isNewRecordRow lc) (head :: rows)).map (collapseChunk lc n) := by
  intro N
  induction N with
  | zero =>
    intro rows hlen A head
    have hnil : rows = [] := List.length_eq_zero.mp (Nat.le_zero.mp hlen)
    subst hnil
    rw [List.foldl_nil, chunkRecords]
    simp [chunkRecords, collapseChunk]
  | succ N ih =>
    intro rows hlen A head
    have hcontsP : ∀ r ∈ rows.takeWhile (fun x => !isNewRecordRow lc x),
        isNewRecordRow lc r = false := by
      intro r hr
      simpa using List.mem_takeWhile_imp hr
    have hchunk : chunkRecords (isNewRecordRow lc) (head :: rows) =
        (head :: rows.takeWhile (fun x => !isNewRecordRow lc x)) ::
          chunkRecords (isNewRecordRow lc)
            (rows.dropWhile (fun x => !isNewRecordRow lc x)) := by
      rw [chunkRecords]
    have hsplit := (List.takeWhile_append_dropWhile (fun x => !isNewRecordRow lc x) rows).symm
    rw [show rows.foldl (mergeStep lc n) (A ++ [head]) =
        (rows.takeWhile (fun x => !isNewRecordRow lc x) ++
          rows.dropWhile (fun x => !isNewRecordRow lc x)).foldl (mergeStep lc n)
          (A ++ [head]) from by rw [← hsplit]]
    rw [List.foldl_append, foldl_mergeStep_conts lc n _ hcontsP A head]
    cases hr : rows.dropWhile (fun x => !isNewRecordRow lc x) with
    | nil =>
      rw [List.foldl_nil, hchunk, hr]
      simp [chunkRecords, collapseChunk]
    | cons r2 rest2 =>
      have hr2 : isNewRecordRow lc r2 = true := by
        have hne : rows.dropWhile (fun x => !isNewRecordRow lc x) ≠ [] := by
          rw [hr]; exact List.cons_ne_nil _ _
        have := List.head_dropWhile_not (fun x => !isNewRecordRow lc x) rows hne
        have hhead : (rows.dropWhile (fun x => !isNewRecordRow lc x)).head hne = r2 := by
          simp [hr]
        rw [hhead] at this
        simpa using this
      have hstep : mergeStep lc n
          (A ++ [(rows.takeWhile (fun x => !isNewRecordRow lc x)).foldl
            (appendContinuation lc n) head]) r2 =
          (A ++ [(rows.takeWhile (fun x => !isNewRecordRow lc x)).foldl
            (appendContinuation lc n) head]) ++ [r2] := by
        rw [mergeStep, if_pos]
        left
        rw [isNewRecordRow] at hr2
        exact hr2
      have hlen2 : rest2.length ≤ N := by
        have h1 : (rows.dropWhile (fun x => !isNewRecordRow lc x)).length ≤ rows.length :=
          List.Sublist.length_le (List.dropWhile_sublist _)
        rw [hr] at h1
        simp only [List.length_cons] at h1
        omega
      rw [List.foldl_cons, hstep, ih rest2 hlen2 _ r2, hchunk, hr]
      simp [collapseChunk, List.append_assoc]

/-- C5 (amended): with no detected line-number column the rows pass
through unchanged; with a detected column, the output records are exactly
the input rows chunked at every row whose line column holds a pure
integer, with each chunk's continuation rows pipe-appended into its first
row — a row with an integer always starts a new record, any other row is
appended into the previous record WHEN ONE EXISTS, and a leading
non-integer row starts a record itself; the line-number column of a
record is never modified by appending. -/
theorem c5_merge_characterization (rows : List (List String)) (lineColIdx : Int)
    (numCols : Nat) :
    (lineColIdx < 0 → mergeMultiLineRows rows lineColIdx numCols = rows) ∧
    (0 ≤ lineColIdx → mergeMultiLineRows rows lineColIdx numCols =
      (chunkRecords (isNewRecordRow lineColIdx) rows).map (collapseChunk lineColIdx numCols)) ∧
    (∀ prev row, getCell (appendContinuation lineColIdx numCols prev row) lineColIdx =
      getCell prev lineColIdx) := by
  refine ⟨fun h => by rw [mergeMultiLineRows, if_pos h], fun h => ?_,
    appendContinuation_preserves_lineCol lineColIdx numCols⟩
  rw [mergeMultiLineRows, if_neg (by omega)]
  cases rows with
  | nil => simp [chunkRecords]
  | cons r rest =>
    have h1 : mergeStep lineColIdx numCols [] r = [] ++ [r] := by
      rw [mergeStep, if_pos (Or.inr rfl)]
    rw [List.foldl_cons, h1,
      foldl_mergeStep_chunks lineColIdx numCols rest.length rest le_rfl [] r]
    simp

/-- Witness for C5 (amended) at a concrete numbered row followed by a
continuation row. -/
theorem c5_witness :
    (0 : Int) ≤ 0 ∧
    mergeMultiLineRows [["1", "a"], ["", "b"]] 0 2 =
      (chunkRecords (isNewRecordRow 0) [["1", "a"], ["", "b"]]).map (collapseChunk 0 2) ∧
    mergeMultiLineRows [["1", "a"], ["", "b"]] 0 2 = [["1", "a | b"]] :=
  ⟨le_refl 0, (c5_merge_characterization [["1", "a"], ["", "b"]] 0 2).2.1 (le_refl 0), rfl⟩

theorem buildRow_presentIn (n : Nat) (hs : List String) (kms : List (List (String × Nat)))
    (nfs : List (List (List String))) (rel : List String) (key : String) :
    (buildRow n hs kms nfs rel key).presentIn = presentInOf n kms rel := rfl

theorem buildRow_missingFrom (n : Nat) (hs : List String) (kms : List (List (String × Nat)))
    (nfs : List (List (List String))) (rel : List String) (key : String) :
    (buildRow n hs kms nfs rel key).missingFrom = missingFromOf n kms rel := rfl

theorem buildRow_keyValue (n : Nat) (hs : List String) (kms : List (List (String × Nat)))
    (nfs : List (List (List String))) (rel : List String) (key : String) :
    (buildRow n hs kms nfs rel key).keyValue = key := rfl

theorem buildRow_cells (n : Nat) (hs : List String) (kms : List (List (String × Nat)))
    (nfs : List (List (List String))) (rel : List String) (key : String) :
    (buildRow n hs kms nfs rel key).cells =
      hs.enum.map (mkCell (missingFromOf n kms rel) (fileRowsOf n kms nfs rel)) := rfl

theorem buildRow_status (n : Nat) (hs : List String) (kms : List (List (String × Nat)))
    (nfs : List (List (List String))) (rel : List String) (key : String) :
    (buildRow n hs kms nfs rel key).status =
      (if missingFromOf n kms rel ≠ [] then RowStatus.missing
       else if (hs.enum.map (mkCell (missingFromOf n kms rel)
           (fileRowsOf n kms nfs rel))).any hasChangesCell then RowStatus.modified
       else RowStatus.identical) := rfl

theorem mkCell_values (mf : List Nat) (fr : List (Option (List String))) (p : Nat × String) :
    (mkCell mf fr p).values = cellValues fr p.1 := rfl

theorem mkCell_changed (mf : List Nat) (fr : List (Option (List String))) (p : Nat × String) :
    (mkCell mf fr p).changed =
      (!(decide ((cellValues fr p.1).filterMap id ≠ []) &&
        allEqB ((cellValues fr p.1).filterMap id)) || decide (mf ≠ [])) := rfl

theorem mem_presentInOf (n : Nat) (kms : List (List (String × Nat))) (rel : List String)
    (f : Nat) :
    f ∈ presentInOf n kms rel ↔
      f < n ∧ (findRowIdx rel (kms.getD f [])).isSome = true := by
  simp [presentInOf, List.mem_filter, List.mem_range]

theorem mem_missingFromOf (n : Nat) (kms : List (List (String × Nat))) (rel : List String)
    (f : Nat) :
    f ∈ missingFromOf n kms rel ↔ f < n ∧ f ∉ presentInOf n kms rel := by
  simp [missingFromOf, List.mem_filter, List.mem_range]

theorem missingFromOf_ne_nil_iff (n : Nat) (kms : List (List (String × Nat)))
    (rel : List String) :
    missingFromOf n kms rel ≠ [] ↔ ∃ f, f < n ∧ f ∉ presentInOf n kms rel := by
  constructor
  · intro h
    match hm : missingFromOf n kms rel with
    | [] => exact absurd hm h
    | f :: rest =>
      have : f ∈ missingFromOf n kms rel := by rw [hm]; exact List.mem_cons_self _ _
      exact ⟨f, (mem_missingFromOf n kms rel f).mp this⟩
  · intro ⟨f, hf⟩ h
    have : f ∈ missingFromOf n kms rel := (mem_missingFromOf n kms rel f).mpr hf
    rw [h] at this
    exact absurd this (List.not_mem_nil _)

theorem foldl_compareStep_mem (n : Nat) (hs : List String)
    (kms : List (List (String × Nat))) (nfs : List (List (List String)))
    (fm : List (String × String)) (keys : List String)
    (st : List ComparedRow × List String) (r : ComparedRow)
    (hr : r ∈ (keys.foldl (compareStep n hs kms nfs fm) st).1) :
    r ∈ st.1 ∨ ∃ key ∈ keys,
      r = buildRow n hs kms nfs (relatedKeysOf ((lookupStr fm key).getD key) fm)
        ((lookupStr fm key).getD key) := by
  induction keys generalizing st with
  | nil => exact Or.inl hr
  | cons k ks ih =>
    rw [List.foldl_cons] at hr
    rcases ih (compareStep n hs kms nfs fm st k) hr with h | ⟨key, hkey, heq⟩
    · rw [compareStep] at h
      by_cases h1 : k ∈ st.2
      · rw [if_pos h1] at h
        exact Or.inl h
      · rw [if_neg h1] at h
        by_cases h2 : (lookupStr fm k).getD k ∈ st.2 ∧ (lookupStr fm k).getD k ≠ k
        · rw [if_pos h2] at h
          exact Or.inl h
        · rw [if_neg h2] at h
          simp only [List.mem_append, List.mem_singleton] at h
          rcases h with h | h
          · exact Or.inl h
          · exact Or.inr ⟨k, List.mem_cons_self _ _, h⟩
    · exact Or.inr ⟨key, List.mem_cons_of_mem _ hkey, heq⟩

theorem mem_rows_imp (allTables : List (List ParsedTable)) (k : Int) (r : ComparedRow)
    (hr : r ∈ (compareMultiFiles allTables k).rows) :
    ∃ key ∈ allKeysOf allTables k,
      r = buildRow allTables.length (headersOf allTables) (keyMapsOf allTables k)
        (normalizedFilesOf allTables)
        (relatedKeysOf ((lookupStr (fuzzyMatchedOf allTables k) key).getD key)
          (fuzzyMatchedOf allTables k))
        ((lookupStr (fuzzyMatchedOf allTables k) key).getD key) := by
  have hrows : (compareMultiFiles allTables k).rows =
      sortRows (compareLoop allTables.length (headersOf allTables)
        (keyMapsOf allTables k) (normalizedFilesOf allTables)
        (fuzzyMatchedOf allTables k) (allKeysOf allTables k)) := rfl
  rw [hrows, sortRows, mem_stableSort, compareLoop] at hr
  rcases foldl_compareStep_mem _ _ _ _ _ _ _ _ hr with h | h
  · exact absurd h (List.not_mem_nil _)
  · exact h

/-- C2: for every record produced by `compareMultiFiles`, `presentIn` and
`missingFrom` are duplicate-free, disjoint, and together cover exactly the
file indices `0 .. N-1`; and the record's status is `missing` exactly when
`missingFrom` is non-empty. -/
theorem c2_partition_and_missing (allTables : List (List ParsedTable)) (k : Int) :
    ∀ r ∈ (compareMultiFiles allTables k).rows,
      r.presentIn.Nodup ∧ r.missingFrom.Nodup ∧
      (∀ f, f ∈ r.presentIn → f ∉ r.missingFrom) ∧
      (∀ f, (f ∈ r.presentIn ∨ f ∈ r.missingFrom) ↔ f < allTables.length) ∧
      (r.status = RowStatus.missing ↔ r.missingFrom ≠ []) := by
  intro r hr
  obtain ⟨key, _, rfl⟩ := mem_rows_imp allTables k r hr
  rw [buildRow_presentIn, buildRow_missingFrom, buildRow_status]
  refine ⟨(List.nodup_range _).filter _, (List.nodup_range _).filter _, ?_, ?_, ?_⟩
  · intro f hf hmf
    exact ((mem_missingFromOf _ _ _ f).mp hmf).2 hf
  · intro f
    constructor
    · intro h
      rcases h with h | h
      · exact ((mem_presentInOf _ _ _ f).mp h).1
      · exact ((mem_missingFromOf _ _ _ f).mp h).1
    · intro hf
      by_cases hp : f ∈ presentInOf allTables.length (keyMapsOf allTables k)
          (relatedKeysOf ((lookupStr (fuzzyMatchedOf allTables k) key).getD key)
            (fuzzyMatchedOf allTables k))
      · exact Or.inl hp
      · exact Or.inr ((mem_missingFromOf _ _ _ f).mpr ⟨hf, hp⟩)
  · by_cases hm : missingFromOf allTables.length (keyMapsOf allTables k)
        (relatedKeysOf ((lookupStr (fuzzyMatchedOf allTables k) key).getD key)
          (fuzzyMatchedOf allTables k)) ≠ []
    · rw [if_pos hm]
      simp [hm]
    · rw [if_neg hm]
      push_neg at hm
      constructor
      · intro hstat
        by_cases hc : (headersOf allTables).enum.map (mkCell
            (missingFromOf allTables.length (keyMapsOf allTables k)
              (relatedKeysOf ((lookupStr (fuzzyMatchedOf allTables k) key).getD key)
                (fuzzyMatchedOf allTables k)))
            (fileRowsOf allTables.length (keyMapsOf allTables k)
              (normalizedFilesOf allTables)
              (relatedKeysOf ((lookupStr (fuzzyMatchedOf allTables k) key).getD key)
                (fuzzyMatchedOf allTables k)))) |>.any hasChangesCell
        · rw [if_pos hc] at hstat
          exact absurd hstat (by simp)
        · rw [if_neg hc] at hstat
          exact absurd hstat (by simp)
      · intro hne
        exact absurd hm hne

theorem allEqB_iff (l : List String) : allEqB l = true ↔ listAllEq l := by
  rw [allEqB, List.all_eq_true]
  constructor
  · intro h x hx y hy
    have hx' := h x hx
    have hy' := h y hy
    simp only [decide_eq_true_eq] at hx' hy'
    rw [hx', hy']
  · intro h x hx
    simp only [decide_eq_true_eq]
    cases l with
    | nil => exact absurd hx (List.not_mem_nil _)
    | cons v rest => exact h x hx v (List.mem_cons_self _ _)

theorem allEqB_singleton (v : String) : allEqB [v] = true := by
  simp [allEqB]

theorem allEqB_false_length (l : List String) (h : allEqB l = false) : 1 < l.length := by
  cases l with
  | nil => simp [allEqB] at h
  | cons v rest =>
    cases rest with
    | nil => rw [allEqB_singleton] at h; exact absurd h (by simp)
    | cons w rest2 => simp [List.length_cons]

theorem any_congr_of_mem {α : Type} {l : List α} {p q : α → Bool}
    (h : ∀ x ∈ l, p x = q x) : l.any p = l.any q := by
  induction l with
  | nil => rfl
  | cons a l ih =>
    simp only [List.any_cons, h a (List.mem_cons_self _ _),
      ih (fun x hx => h x (List.mem_cons_of_mem _ hx))]

theorem cellValues_filterMap_ne_nil (n : Nat) (kms : List (List (String × Nat)))
    (nfs : List (List (List String))) (rel : List String) (hIdx : Nat) (f : Nat)
    (hf : f ∈ presentInOf n kms rel) :
    (cellValues (fileRowsOf n kms nfs rel) hIdx).filterMap id ≠ [] := by
  obtain ⟨hfn, hsome⟩ := (mem_presentInOf n kms rel f).mp hf
  obtain ⟨rowIdx, hrow⟩ := Option.isSome_iff_exists.mp hsome
  have hmem : ((findRowIdx rel (kms.getD f [])).map
      (fun rowIdx => (nfs.getD f []).getD rowIdx [])) ∈ fileRowsOf n kms nfs rel := by
    rw [fileRowsOf]
    exact List.mem_map_of_mem _ (List.mem_range.mpr hfn)
  have hval : (some (jsTrim ((((nfs.getD f []).getD rowIdx []).getD hIdx "")))) ∈
      cellValues (fileRowsOf n kms nfs rel) hIdx := by
    rw [cellValues]
    have := List.mem_map_of_mem
      (fun fr => fr.map (fun row => jsTrim (row.getD hIdx ""))) hmem
    rwa [hrow] at this
  intro hnil
  have : jsTrim ((((nfs.getD f []).getD rowIdx []).getD hIdx "")) ∈
      (cellValues (fileRowsOf n kms nfs rel) hIdx).filterMap id :=
    List.mem_filterMap.mpr ⟨_, hval, rfl⟩
  rw [hnil] at this
  exact absurd this (List.not_mem_nil _)

theorem presentInOf_zero_mem (n : Nat) (kms : List (List (String × Nat)))
    (rel : List String) (hn : 0 < n)
    (hm : missingFromOf n kms rel = []) : 0 ∈ presentInOf n kms rel := by
  by_contra hp
  have : (0 : Nat) ∈ missingFromOf n kms rel := (mem_missingFromOf n kms rel 0).mpr ⟨hn, hp⟩
  rw [hm] at this
  exact absurd this (List.not_mem_nil _)

theorem hasChangesCell_eq_changed (n : Nat) (kms : List (List (String × Nat)))
    (nfs : List (List (List String))) (rel : List String) (p : Nat × String)
    (hn : 0 < n) (hm : missingFromOf n kms rel = []) :
    hasChangesCell (mkCell (missingFromOf n kms rel) (fileRowsOf n kms nfs rel) p) =
      (mkCell (missingFromOf n kms rel) (fileRowsOf n kms nfs rel) p).changed := by
  have hne : (cellValues (fileRowsOf n kms nfs rel) p.1).filterMap id ≠ [] :=
    cellValues_filterMap_ne_nil n kms nfs rel p.1 0 (presentInOf_zero_mem n kms rel hn hm)
  rw [hasChangesCell, mkCell_changed, mkCell_values, hm]
  simp only [ne_eq, not_true_eq_false, decide_False, Bool.or_false]
  rw [decide_eq_true (show (cellValues (fileRowsOf n kms nfs rel) p.1).filterMap id ≠ []
    from hne)]
  simp only [Bool.true_and]
  by_cases hall : allEqB ((cellValues (fileRowsOf n kms nfs rel) p.1).filterMap id) = true
  · rw [hall]
    simp
  · rw [Bool.not_eq_true] at hall
    rw [hall]
    have := allEqB_false_length _ hall
    simp [this]

theorem buildRow_cell_changed_iff (n : Nat) (hs : List String)
    (kms : List (List (String × Nat))) (nfs : List (List (List String)))
    (rel : List String) (key : String) (hn : 0 < n) :
    ∀ c ∈ (buildRow n hs kms nfs rel key).cells,
      (c.changed = true ↔
        (¬ listAllEq (c.values.filterMap id) ∨
          ∃ f, f < n ∧ f ∉ (buildRow n hs kms nfs rel key).presentIn)) := by
  intro c hc
  rw [buildRow_cells] at hc
  obtain ⟨p, _, rfl⟩ := List.mem_map.mp hc
  rw [buildRow_presentIn, mkCell_changed, mkCell_values]
  by_cases hm : missingFromOf n kms rel ≠ []
  · constructor
    · intro _
      exact Or.inr ((missingFromOf_ne_nil_iff n kms rel).mp hm)
    · intro _
      simp [hm]
  · push_neg at hm
    have hne : (cellValues (fileRowsOf n kms nfs rel) p.1).filterMap id ≠ [] :=
      cellValues_filterMap_ne_nil n kms nfs rel p.1 0 (presentInOf_zero_mem n kms rel hn hm)
    have hnof : ¬ ∃ f, f < n ∧ f ∉ presentInOf n kms rel := by
      intro hex
      exact absurd hm (by
        intro _
        exact absurd ((missingFromOf_ne_nil_iff n kms rel).mpr hex) (by simp [hm]))
    rw [hm]
    simp only [ne_eq, not_true_eq_false, decide_False, Bool.or_false]
    rw [decide_eq_true (show (cellValues (fileRowsOf n kms nfs rel) p.1).filterMap id ≠ []
      from hne)]
    simp only [Bool.true_and, Bool.not_eq_true']
    constructor
    · intro hfalse
      exact Or.inl (fun hall => by rw [(allEqB_iff _).mpr hall] at hfalse; exact absurd hfalse (by simp))
    · intro h
      rcases h with h | h
      · rw [Bool.eq_false_iff]
        intro htrue
        exact h ((allEqB_iff _).mp htrue)
      · exact absurd h hnof

theorem buildRow_status_iff (n : Nat) (hs : List String)
    (kms : List (List (String × Nat))) (nfs : List (List (List String)))
    (rel : List String) (key : String) (hn : 0 < n) :
    (buildRow n hs kms nfs rel key).status =
      (if (buildRow n hs kms nfs rel key).missingFrom ≠ [] then RowStatus.missing
       else if (buildRow n hs kms nfs rel key).cells.any (fun c => c.changed) = true then
         RowStatus.modified
       else RowStatus.identical) := by
  rw [buildRow_status, buildRow_missingFrom, buildRow_cells]
  by_cases hm : missingFromOf n kms rel ≠ []
  · rw [if_pos hm, if_pos hm]
  · rw [if_neg hm, if_neg hm]
    push_neg at hm
    have hcong : ((hs.enum.map (mkCell (missingFromOf n kms rel)
        (fileRowsOf n kms nfs rel))).any hasChangesCell) =
        ((hs.enum.map (mkCell (missingFromOf n kms rel)
          (fileRowsOf n kms nfs rel))).any (fun c => c.changed)) := by
      apply any_congr_of_mem
      intro c hc
      obtain ⟨p, _, rfl⟩ := List.mem_map.mp hc
      exact hasChangesCell_eq_changed n kms nfs rel p hn hm
    rw [hcong]

theorem compareMultiFiles_nil_rows (k : Int) : (compareMultiFiles [] k).rows = [] := rfl

/-- C1: in every record produced by `compareMultiFiles`, a cell's
`changed` flag is true exactly when the non-absent values collected from
the files are not all equal or the record is not present in every file;
and the record's status is `missing` when `missingFrom` is non-empty,
else `modified` when some cell changed, else `identical`. -/
theorem c1_cell_changed_and_status (allTables : List (List ParsedTable)) (k : Int) :
    ∀ r ∈ (compareMultiFiles allTables k).rows,
      (∀ c ∈ r.cells,
        (c.changed = true ↔
          (¬ listAllEq (c.values.filterMap id) ∨
            ∃ f, f < allTables.length ∧ f ∉ r.presentIn))) ∧
      r.status = (if r.missingFrom ≠ [] then RowStatus.missing
        else if r.cells.any (fun c => c.changed) = true then RowStatus.modified
        else RowStatus.identical) := by
  intro r hr
  cases allTables with
  | nil =>
    rw [compareMultiFiles_nil_rows] at hr
    exact absurd hr (List.not_mem_nil _)
  | cons t ts =>
    obtain ⟨key, _, rfl⟩ := mem_rows_imp (t :: ts) k r hr
    exact ⟨buildRow_cell_changed_iff _ _ _ _ _ _ (Nat.succ_pos _),
      buildRow_status_iff _ _ _ _ _ _ (Nat.succ_pos _)⟩

theorem buildKeyMap_keys_ne_empty (rows : List (List String)) (keyIdx : Int) :
    ∀ p ∈ buildKeyMap rows keyIdx, p.1 ≠ "" := by
  rw [buildKeyMap]
  generalize List.range rows.length = is
  have inv : ∀ (is : List Nat) (acc : List (String × Nat)), (∀ p ∈ acc, p.1 ≠ "") →
      ∀ p ∈ is.foldl (fun map i =>
        if normalizeKey (getCell (rows.getD i []) keyIdx) ≠ "" ∧
            lookupNat map (normalizeKey (getCell (rows.getD i []) keyIdx)) = none then
          map ++ [(normalizeKey (getCell (rows.getD i []) keyIdx), i)]
        else map) acc, p.1 ≠ "" := by
    intro is
    induction is with
    | nil => intro acc hacc p hp; exact hacc p hp
    | cons i is ih =>
      intro acc hacc p hp
      rw [List.foldl_cons] at hp
      refine ih _ ?_ p hp
      by_cases hcond : normalizeKey (getCell (rows.getD i []) keyIdx) ≠ "" ∧
          lookupNat acc (normalizeKey (getCell (rows.getD i []) keyIdx)) = none
      · rw [if_pos hcond]
        intro q hq
        rcases List.mem_append.mp hq with hq | hq
        · exact hacc q hq
        · rw [List.mem_singleton] at hq
          rw [hq]
          exact hcond.1
      · rw [if_neg hcond]
        exact hacc
  exact inv is [] (by intro p hp; exact absurd hp (List.not_mem_nil _))

theorem lookupNat_empty_none (m : List (String × Nat)) (h : ∀ p ∈ m, p.1 ≠ "") :
    lookupNat m "" = none := by
  rw [lookupNat]
  cases hf : m.find? (fun p => p.1 = "") with
  | none => rfl
  | some p =>
    have h1 : p.1 = "" := by simpa using List.find?_some hf
    exact absurd h1 (h p (List.mem_of_find?_eq_some hf))

theorem collectKeys_ne_empty (kms : List (List (String × Nat)))
    (h : ∀ m ∈ kms, ∀ p ∈ m, p.1 ≠ "") : ∀ x ∈ collectKeys kms, x ≠ "" := by
  rw [collectKeys]
  have inner : ∀ (m : List (String × Nat)), (∀ p ∈ m, p.1 ≠ "") →
      ∀ (acc : List String), (∀ x ∈ acc, x ≠ "") →
      ∀ x ∈ m.foldl (fun acc p => if p.1 ∈ acc then acc else acc ++ [p.1]) acc, x ≠ "" := by
    intro m
    induction m with
    | nil => intro _ acc hacc x hx; exact hacc x hx
    | cons q m ih =>
      intro hm acc hacc x hx
      rw [List.foldl_cons] at hx
      refine ih (fun p hp => hm p (List.mem_cons_of_mem _ hp)) _ ?_ x hx
      by_cases hq : q.1 ∈ acc
      · rw [if_pos hq]
        exact hacc
      · rw [if_neg hq]
        intro y hy
        rcases List.mem_append.mp hy with hy | hy
        · exact hacc y hy
        · rw [List.mem_singleton] at hy
          rw [hy]
          exact hm q (List.mem_cons_self _ _)
  have outer : ∀ (ms : List (List (String × Nat))), (∀ m ∈ ms, ∀ p ∈ m, p.1 ≠ "") →
      ∀ (acc : List String), (∀ x ∈ acc, x ≠ "") →
      ∀ x ∈ ms.foldl (fun acc m =>
        m.foldl (fun acc p => if p.1 ∈ acc then acc else acc ++ [p.1]) acc) acc, x ≠ "" := by
    intro ms
    induction ms with
    | nil => intro _ acc hacc x hx; exact hacc x hx
    | cons m ms ih =>
      intro hms acc hacc x hx
      rw [List.foldl_cons] at hx
      exact ih (fun m' hm' => hms m' (List.mem_cons_of_mem _ hm'))
        _ (inner m (hms m (List.mem_cons_self _ _)) acc hacc) x hx
  exact outer kms h [] (by intro x hx; exact absurd hx (List.not_mem_nil _))

theorem fuzzyMatched_snd_ne_empty (ks : List String) (kms : List (List (String × Nat))) :
    ∀ pr ∈ fuzzyMatched ks kms, pr.2 ≠ "" := by
  rw [fuzzyMatched]
  have inv : ∀ (ks' : List String) (acc : List (String × String)), (∀ pr ∈ acc, pr.2 ≠ "") →
      ∀ pr ∈ ks'.foldl (fun fm key =>
        if (kms.filter (fun m => lookupNat m key ≠ none)).length = 1 then
          if bestFuzzy key ks ≠ "" then fm ++ [(key, bestFuzzy key ks)] else fm
        else fm) acc, pr.2 ≠ "" := by
    intro ks'
    induction ks' with
    | nil => intro acc hacc pr hpr; exact hacc pr hpr
    | cons key ks' ih =>
      intro acc hacc pr hpr
      rw [List.foldl_cons] at hpr
      refine ih _ ?_ pr hpr
      by_cases h1 : (kms.filter (fun m => lookupNat m key ≠ none)).length = 1
      · rw [if_pos h1]
        by_cases h2 : bestFuzzy key ks ≠ ""
        · rw [if_pos h2]
          intro q hq
          rcases List.mem_append.mp hq with hq | hq
          · exact hacc q hq
          · rw [List.mem_singleton] at hq
            rw [hq]
            exact h2
        · rw [if_neg h2]
          exact hacc
      · rw [if_neg h1]
        exact hacc
  exact inv ks [] (by intro pr hpr; exact absurd hpr (List.not_mem_nil _))

theorem lookupStr_some_mem (m : List (String × String)) (k v : String)
    (h : lookupStr m k = some v) : ∃ p ∈ m, p.2 = v := by
  rw [lookupStr] at h
  cases hf : m.find? (fun p => p.1 = k) with
  | none => rw [hf] at h; exact absurd h (by simp)
  | some p =>
    rw [hf] at h
    simp only [Option.map_some'] at h
    exact ⟨p, List.mem_of_find?_eq_some hf, Option.some.inj h⟩

/-- C9: rows whose key normalizes to the empty string are never entered
into a file's key map, and no output record is keyed by the empty string:
empty-key rows are excluded from exact matching, fuzzy matching, and the
record set. -/
theorem c9_empty_key_excluded (allTables : List (List ParsedTable)) (k : Int) :
    (∀ m ∈ keyMapsOf allTables k, lookupNat m "" = none) ∧
    (∀ r ∈ (compareMultiFiles allTables k).rows, r.keyValue ≠ "") := by
  have hmaps : ∀ m ∈ keyMapsOf allTables k, ∀ p ∈ m, p.1 ≠ "" := by
    intro m hm
    rw [keyMapsOf] at hm
    obtain ⟨rows, _, rfl⟩ := List.mem_map.mp hm
    exact buildKeyMap_keys_ne_empty rows _
  refine ⟨fun m hm => lookupNat_empty_none m (hmaps m hm), fun r hr => ?_⟩
  obtain ⟨key, hk, rfl⟩ := mem_rows_imp allTables k r hr
  rw [buildRow_keyValue]
  cases hl : lookupStr (fuzzyMatchedOf allTables k) key with
  | some v =>
    obtain ⟨p, hp, hv⟩ := lookupStr_some_mem _ _ _ hl
    simpa [Option.getD, hv] using fuzzyMatched_snd_ne_empty _ _ p hp
  | none =>
    simpa [Option.getD] using collectKeys_ne_empty _ hmaps key hk

theorem jsRound_bounds (q : ℚ) (h0 : 0 ≤ q) (h1 : q ≤ 100) :
    0 ≤ jsRound q ∧ jsRound q ≤ 100 := by
  constructor
  · rw [jsRound]
    exact Int.floor_nonneg.mpr (by linarith)
  · rw [jsRound]
    have hlt : ⌊q + 1/2⌋ < 101 := Int.floor_lt.mpr (by push_cast; linarith)
    omega

theorem calculateSummary_matchScore (rows : List ComparedRow) (n : Nat) :
    0 ≤ (calculateSummary rows n).matchScore ∧
    (calculateSummary rows n).matchScore ≤ 100 ∧
    (0 < (calculateSummary rows n).totalItems →
      (calculateSummary rows n).matchScore =
        jsRound (((calculateSummary rows n).identical : ℚ) /
          ((calculateSummary rows n).totalItems : ℚ) * 100)) ∧
    ((calculateSummary rows n).totalItems = 0 →
      (calculateSummary rows n).matchScore = 100) := by
  have hT : (calculateSummary rows n).totalItems = rows.length := rfl
  have hI : (calculateSummary rows n).identical =
      rows.countP (fun r => decide (r.status = RowStatus.identical)) := rfl
  have hM : (calculateSummary rows n).matchScore =
      (if 0 < rows.length then
        jsRound ((rows.countP (fun r => decide (r.status = RowStatus.identical)) : ℚ) /
          (rows.length : ℚ) * 100)
      else 100) := rfl
  by_cases h : 0 < rows.length
  · have hlen : (0:ℚ) < (rows.length : ℚ) := by exact_mod_cast h
    have hq0 : (0:ℚ) ≤
        (rows.countP (fun r => decide (r.status = RowStatus.identical)) : ℚ) /
          (rows.length : ℚ) * 100 := by positivity
    have hdiv : (rows.countP (fun r => decide (r.status = RowStatus.identical)) : ℚ) /
        (rows.length : ℚ) ≤ 1 := by
      rw [div_le_one hlen]
      exact_mod_cast List.countP_le_length _
    have hq1 : (rows.countP (fun r => decide (r.status = RowStatus.identical)) : ℚ) /
        (rows.length : ℚ) * 100 ≤ 100 := by nlinarith
    obtain ⟨hb0, hb1⟩ := jsRound_bounds _ hq0 hq1
    rw [hM, if_pos h]
    refine ⟨hb0, hb1, fun _ => ?_, fun h0 => absurd h0 (by omega)⟩
    rw [hI, hT]
  · push_neg at h
    have h0 : rows.length = 0 := by omega
    rw [hM, if_neg (by omega)]
    exact ⟨by norm_num, by norm_num, fun hpos => absurd (hT ▸ hpos) (by omega),
      fun _ => rfl⟩

/-- C6: the summary's `matchScore` always lies in `[0, 100]`; when
`totalItems > 0` it equals the rounded percentage of identical records,
and when `totalItems = 0` it equals 100. -/
theorem c6_matchScore (allTables : List (List ParsedTable)) (k : Int) :
    0 ≤ (compareMultiFiles allTables k).summary.matchScore ∧
    (compareMultiFiles allTables k).summary.matchScore ≤ 100 ∧
    (0 < (compareMultiFiles allTables k).summary.totalItems →
      (compareMultiFiles allTables k).summary.matchScore =
        jsRound (((compareMultiFiles allTables k).summary.identical : ℚ) /
          ((compareMultiFiles allTables k).summary.totalItems : ℚ) * 100)) ∧
    ((compareMultiFiles allTables k).summary.totalItems = 0 →
      (compareMultiFiles allTables k).summary.matchScore = 100) :=
  calculateSummary_matchScore _ _

/-- Witness for C6 at the concrete Bolt scenario (one modified record). -/
theorem c6_witness :
    0 ≤ (compareMultiFiles exTables 0).summary.matchScore ∧
    (compareMultiFiles exTables 0).summary.matchScore =
      jsRound (((compareMultiFiles exTables 0).summary.identical : ℚ) /
        ((compareMultiFiles exTables 0).summary.totalItems : ℚ) * 100) :=
  ⟨(c6_matchScore exTables 0).1,
   (c6_matchScore exTables 0).2.2.1 (of_decide_eq_true rfl)⟩

/-- Witness for C2 at the concrete Bolt record. -/
theorem c2_witness :
    boltRow ∈ (compareMultiFiles exTables 0).rows ∧
    (boltRow.status = RowStatus.missing ↔ boltRow.missingFrom ≠ []) ∧
    (∀ f, (f ∈ boltRow.presentIn ∨ f ∈ boltRow.missingFrom) ↔ f < exTables.length) := by
  have hmem : boltRow ∈ (compareMultiFiles exTables 0).rows := of_decide_eq_true rfl
  have h := c2_partition_and_missing exTables 0 boltRow hmem
  exact ⟨hmem, h.2.2.2.2, h.2.2.2.1⟩

/-- Witness for C1 at the concrete Bolt record's Qty cell. -/
theorem c1_witness :
    boltRow ∈ (compareMultiFiles exTables 0).rows ∧
    ((⟨"Qty", [some "10", some "12"], true⟩ : ComparedCell).changed = true ↔
      (¬ listAllEq ((⟨"Qty", [some "10", some "12"], true⟩ :
          ComparedCell).values.filterMap id) ∨
        ∃ f, f < exTables.length ∧ f ∉ boltRow.presentIn)) := by
  have hmem : boltRow ∈ (compareMultiFiles exTables 0).rows := of_decide_eq_true rfl
  have hcell : (⟨"Qty", [some "10", some "12"], true⟩ : ComparedCell) ∈ boltRow.cells :=
    of_decide_eq_true rfl
  exact ⟨hmem, (c1_cell_changed_and_status exTables 0 boltRow hmem).1 _ hcell⟩

/-- Witness for C9 at the concrete Bolt comparison. -/
theorem c9_witness :
    lookupNat [("bolt", 0)] "" = none ∧ boltRow.keyValue ≠ "" := by
  have h := c9_empty_key_excluded exTables 0
  have hm : ([("bolt", (0:Nat))]) ∈ keyMapsOf exTables 0 := of_decide_eq_true rfl
  exact ⟨h.1 _ hm, h.2 boltRow (of_decide_eq_true rfl)⟩
